import Mathlib

/-!
Shallow embedding of the snake game state machine in `src/game.js`.

The JS module keeps its whole game state in module-level variables
(`snake`, `food`, `dx`, `dy`, `score`, `highScore`, `gameLoop`,
`gameStarted`, `gamePaused`, `gameSpeed`); we gather them into one
record `GameState`.  DOM side effects are modelled only where they carry
state the spec talks about: the `game-over` overlay visibility becomes
the field `gameOver` (it is what distinguishes the spec's `ended` phase
from `idle`, since `endGame` only clears `gameStarted`), the repeating
`setInterval` handle becomes `timer : Option Nat` holding the interval
it was armed with, and each `localStorage.setItem` call is logged in
`writes`.  `Math.floor(Math.random() * TILE_COUNT)` draws are modelled
by an oracle stream `r : Nat → Cell`; the recursive `generateFood` gets
explicit fuel and returns `none` when the fuel runs out (the JS code
would recurse forever / blow the stack there), so every operation that
places food returns `Option GameState`.  `TILE_COUNT` is
`canvas.width / GRID_SIZE`; the canvas markup is not part of the
repository, so the board dimension is kept as a parameter `N`.
-/

namespace SnakeGame

/-- One grid cell, the `{x, y}` objects of the JS code.  Coordinates are
integers because `snake[0].x + dx` can step to `-1`. -/
structure Cell where
  x : Int
  y : Int
deriving DecidableEq, Repr

/-- The coarse lifecycle phase of the spec, derived from the JS flags. -/
inductive Phase where
  | idle
  | running
  | paused
  | ended
deriving DecidableEq, Repr

/-- The module-level mutable state of `src/game.js`. -/
structure GameState where
  snake : List Cell
  food : Cell
  dx : Int
  dy : Int
  score : Nat
  highScore : Nat
  gameStarted : Bool
  gamePaused : Bool
  /-- whether the `game-over` overlay is displayed (`gameOverElement.style.display`) -/
  gameOver : Bool
  gameSpeed : Nat
  /-- the armed `setInterval` handle, tagged with the interval it was created with -/
  timer : Option Nat
  /-- log of values passed to `localStorage.setItem` for the high score key -/
  writes : List Nat
deriving DecidableEq, Repr

/-- Spec phase of a state: `running`/`paused` when a game is started,
otherwise `ended` when the game-over overlay is up, else `idle`. -/
def phase (s : GameState) : Phase :=
  if s.gameStarted then
    if s.gamePaused then Phase.paused else Phase.running
  else
    if s.gameOver then Phase.ended else Phase.idle

/-- The cell `c` lies on the `N × N` board, i.e. in `[0,N) × [0,N)`. -/
def cellInBounds (N : Nat) (c : Cell) : Prop :=
  0 ≤ c.x ∧ c.x < (N : Int) ∧ 0 ≤ c.y ∧ c.y < (N : Int)

instance (N : Nat) (c : Cell) : Decidable (cellInBounds N c) := by
  unfold cellInBounds; infer_instance

/-- The initial snake set by `initGame` (lines 29–33 of `game.js`). -/
def initSnake : List Cell := [⟨10, 10⟩, ⟨9, 10⟩, ⟨8, 10⟩]

/-- Function `generateFood` (lines 44–57): draw a cell from the random stream `r`;
if it lies on the snake, recurse on the next draw.  The JS recursion is
unbounded, so the embedding takes fuel and answers `none` when fuel runs
out; `i` indexes the stream position of the current draw. -/
def genFoodAux (r : Nat → Cell) (snake : List Cell) : Nat → Nat → Option Cell
  | _, 0 => none
  | i, fuel + 1 =>
    let c := r i
    if c ∈ snake then genFoodAux r snake (i + 1) fuel else some c

/-- Function `initGame` (lines 28–41): reset snake, direction, score, hide the
game-over overlay, then place food (against the fresh snake). -/
def initGame (r : Nat → Cell) (fuel : Nat) (s : GameState) : Option GameState :=
  let s1 := { s with snake := initSnake, dx := 1, dy := 0, score := 0, gameOver := false }
  (genFoodAux r s1.snake 0 fuel).map fun f => { s1 with food := f }

/-- Function `endGame` (lines 223–229): cancel the timer, clear `gameStarted`,
show the game-over overlay. -/
def endGame (s : GameState) : GameState :=
  { s with timer := none, gameStarted := false, gameOver := true }

/-- The cell the head would move to: `{x: snake[0].x + dx, y: snake[0].y + dy}`
(line 137).  On an empty snake the JS would throw; we default the head to
`⟨0,0⟩` and the theorems carry a nonemptiness hypothesis. -/
def nextHead (s : GameState) : Cell :=
  ⟨(s.snake.headD ⟨0, 0⟩).x + s.dx, (s.snake.headD ⟨0, 0⟩).y + s.dy⟩

/-- The scoring block of `update` (lines 158–166): `score += 10`, then
update and persist the high score when the new score exceeds it. -/
def scoreFood (s : GameState) : GameState :=
  if s.highScore < s.score + 10 then
    { s with score := s.score + 10, highScore := s.score + 10,
             writes := s.writes ++ [s.score + 10] }
  else
    { s with score := s.score + 10 }

/-- The acceleration block of `update` (lines 171–175): while above the
70 ms floor, drop the interval by 2 and re-arm the timer. -/
def accelerate (s : GameState) : GameState :=
  if 70 < s.gameSpeed then
    { s with gameSpeed := s.gameSpeed - 2, timer := some (s.gameSpeed - 2) }
  else s

/-- Function `update` (lines 133–182), the tick body.  Note the JS guard is only
`if (gamePaused) return;` — `gameStarted` is not consulted here.  Wall
test, then self test, then `unshift`; on food: score and high-score
persistence (`scoreFood`), food regeneration, acceleration; else `pop`. -/
def update (N : Nat) (r : Nat → Cell) (fuel : Nat) (s : GameState) : Option GameState :=
  if s.gamePaused then some s
  else if (nextHead s).x < 0 ∨ (N : Int) ≤ (nextHead s).x ∨
      (nextHead s).y < 0 ∨ (N : Int) ≤ (nextHead s).y then
    some (endGame s)
  else if nextHead s ∈ s.snake then
    some (endGame s)
  else if nextHead s = s.food then
    (genFoodAux r (nextHead s :: s.snake) 0 fuel).map fun f =>
      accelerate { scoreFood { s with snake := nextHead s :: s.snake } with food := f }
  else
    some { s with snake := (nextHead s :: s.snake).dropLast }

/-- Function `startGame` (lines 190–199): only acts when not started; sets the
flags, runs `initGame`, arms the timer at the *current* `gameSpeed`. -/
def startGame (r : Nat → Cell) (fuel : Nat) (s : GameState) : Option GameState :=
  if s.gameStarted then some s
  else
    let s1 := { s with gameStarted := true, gamePaused := false }
    (initGame r fuel s1).map fun s2 => { s2 with timer := some s2.gameSpeed }

/-- Function `togglePause` (lines 202–207): no-op unless started, else flip the flag. -/
def togglePause (s : GameState) : GameState :=
  if s.gameStarted then { s with gamePaused := !s.gamePaused } else s

/-- Function `restartGame` (lines 210–220): cancel the timer, clear both flags,
reset the speed to 120, then `initGame`.  It does not set `gameStarted`
and does not arm a timer. -/
def restartGame (r : Nat → Cell) (fuel : Nat) (s : GameState) : Option GameState :=
  let s1 := { s with timer := none, gameStarted := false, gamePaused := false, gameSpeed := 120 }
  initGame r fuel s1

/-- The recognized keys of the keydown handler (lines 232–257). -/
inductive Key where
  | up
  | down
  | left
  | right
  | space
deriving DecidableEq, Repr

/-- The unit delta an arrow key requests; `space` requests none. -/
def keyDelta : Key → Option (Int × Int)
  | Key.up => some (0, -1)
  | Key.down => some (0, 1)
  | Key.left => some (-1, 0)
  | Key.right => some (1, 0)
  | Key.space => none

/-- The keydown handler (lines 232–257): ignored unless started; vertical
keys require `dy === 0`, horizontal keys require `dx === 0`; space
toggles pause. -/
def keydown (k : Key) (s : GameState) : GameState :=
  if s.gameStarted then
    match k with
    | Key.up => if s.dy = 0 then { s with dx := 0, dy := -1 } else s
    | Key.down => if s.dy = 0 then { s with dx := 0, dy := 1 } else s
    | Key.left => if s.dx = 0 then { s with dx := -1, dy := 0 } else s
    | Key.right => if s.dx = 0 then { s with dx := 1, dy := 0 } else s
    | Key.space => togglePause s
  else s

/-- The external events that mutate game state: a timer tick, a key
press, and the three buttons.  Events that draw food carry their own
random stream and fuel. -/
inductive Op where
  | tick (r : Nat → Cell) (fuel : Nat)
  | key (k : Key)
  | pauseBtn
  | startBtn (r : Nat → Cell) (fuel : Nat)
  | restartBtn (r : Nat → Cell) (fuel : Nat)

/-- One event dispatched against the state. -/
def step (N : Nat) : Op → GameState → Option GameState
  | Op.tick r fuel, s => update N r fuel s
  | Op.key k, s => some (keydown k s)
  | Op.pauseBtn, s => some (togglePause s)
  | Op.startBtn r fuel, s => startGame r fuel s
  | Op.restartBtn r fuel, s => restartGame r fuel s

/-- Run a sequence of events. -/
def run (N : Nat) : List Op → GameState → Option GameState
  | [], s => some s
  | op :: ops, s => (step N op s).bind (run N ops)

/-- Run a sequence of events, collecting the state after each one. -/
def traceStates (N : Nat) : List Op → GameState → Option (List GameState)
  | [], _ => some []
  | op :: ops, s =>
    (step N op s).bind fun s1 => (traceStates N ops s1).map (s1 :: ·)

/-- The in-game events: those that never re-initialize the snake. -/
def InGameOp : Op → Prop
  | Op.tick _ _ => True
  | Op.key _ => True
  | Op.pauseBtn => True
  | Op.startBtn _ _ => False
  | Op.restartBtn _ _ => False

/-- All cells of the `N × N` board, as a finset. -/
def boardCells (N : Nat) : Finset Cell :=
  (Finset.Ico (0 : Int) (N : Int) ×ˢ Finset.Ico (0 : Int) (N : Int)).map
    ⟨fun p => ⟨p.1, p.2⟩, by
      intro a b h
      cases a; cases b
      simpa [Cell.mk.injEq, Prod.ext_iff] using h⟩

/-- The snake invariant of the spec: every cell on the board, no
duplicate cells. -/
def SnakeInv (N : Nat) (s : GameState) : Prop :=
  (∀ c ∈ s.snake, cellInBounds N c) ∧ s.snake.Nodup

/-- Largest score occurring along a trace of states. -/
def maxScore (l : List GameState) : Nat :=
  l.foldr (fun t m => max t.score m) 0

/-- A constant random stream, for concrete instances. -/
def constStream : Nat → Cell := fun _ => ⟨0, 0⟩

/-- A concrete running state on the default 20×20 board: the state right
after `startGame` from a fresh load whose first food draw was `(0,0)`. -/
def sampleRun : GameState :=
  { snake := initSnake, food := ⟨0, 0⟩, dx := 1, dy := 0, score := 0,
    highScore := 0, gameStarted := true, gamePaused := false, gameOver := false,
    gameSpeed := 120, timer := some 120, writes := [] }

/-- The state `sampleRun` reaches after one plain movement tick. -/
def sampleMoved : GameState :=
  { sampleRun with snake := [⟨11, 10⟩, ⟨10, 10⟩, ⟨9, 10⟩] }

/-- A concrete idle state (fresh page load, before any start). -/
def sampleIdle : GameState :=
  { sampleRun with gameStarted := false, timer := none }

/-- A concrete paused state. -/
def samplePaused : GameState :=
  { sampleRun with gamePaused := true }

/-- A concrete ended state (after a collision). -/
def sampleEnded : GameState :=
  { sampleRun with gameStarted := false, gameOver := true, timer := none }

/-- A concrete ended state whose previous game accelerated to 100 ms. -/
def sampleEndedFast : GameState :=
  { sampleEnded with gameSpeed := 100 }

/-- A concrete running state with the food right in front of the head. -/
def sampleEat : GameState :=
  { sampleRun with food := ⟨11, 10⟩ }

/-- The state `sampleEat` reaches after one tick: the snake grew, the
score and high score are 10, the write was persisted, the game sped up. -/
def sampleEaten : GameState :=
  { snake := [⟨11, 10⟩, ⟨10, 10⟩, ⟨9, 10⟩, ⟨8, 10⟩], food := ⟨0, 0⟩,
    dx := 1, dy := 0, score := 10, highScore := 10, gameStarted := true,
    gamePaused := false, gameOver := false, gameSpeed := 118,
    timer := some 118, writes := [10] }

lemma boardCells_mem (N : Nat) (c : Cell) : c ∈ boardCells N ↔ cellInBounds N c := by
  rw [boardCells, Finset.mem_map]
  constructor
  · rintro ⟨p, hp, rfl⟩
    rw [Finset.mem_product, Finset.mem_Ico, Finset.mem_Ico] at hp
    exact ⟨hp.1.1, hp.1.2, hp.2.1, hp.2.2⟩
  · intro hc
    refine ⟨(c.x, c.y), ?_, ?_⟩
    · rw [Finset.mem_product, Finset.mem_Ico, Finset.mem_Ico]
      exact ⟨⟨hc.1, hc.2.1⟩, hc.2.2.1, hc.2.2.2⟩
    · show (⟨c.x, c.y⟩ : Cell) = c
      cases c
      rfl

lemma boardCells_card (N : Nat) : (boardCells N).card = N * N := by
  rw [boardCells, Finset.card_map, Finset.card_product, Int.card_Ico]
  simp

lemma genFoodAux_not_mem (r : Nat → Cell) (snake : List Cell) :
    ∀ fuel i f, genFoodAux r snake i fuel = some f → f ∉ snake := by
  intro fuel
  induction fuel with
  | zero => intro i f h; simp [genFoodAux] at h
  | succ n ih =>
    intro i f h
    simp only [genFoodAux] at h
    split at h
    · exact ih (i + 1) f h
    · cases h
      assumption

lemma phase_running_iff (s : GameState) :
    phase s = Phase.running ↔ s.gameStarted = true ∧ s.gamePaused = false := by
  cases hgs : s.gameStarted <;> cases hgp : s.gamePaused <;>
    cases hgo : s.gameOver <;> simp [phase, hgs, hgp, hgo]

lemma phase_paused_iff (s : GameState) :
    phase s = Phase.paused ↔ s.gameStarted = true ∧ s.gamePaused = true := by
  cases hgs : s.gameStarted <;> cases hgp : s.gamePaused <;>
    cases hgo : s.gameOver <;> simp [phase, hgs, hgp, hgo]

lemma phase_ended_iff (s : GameState) :
    phase s = Phase.ended ↔ s.gameStarted = false ∧ s.gameOver = true := by
  cases hgs : s.gameStarted <;> cases hgp : s.gamePaused <;>
    cases hgo : s.gameOver <;> simp [phase, hgs, hgp, hgo]

lemma phase_idle_iff (s : GameState) :
    phase s = Phase.idle ↔ s.gameStarted = false ∧ s.gameOver = false := by
  cases hgs : s.gameStarted <;> cases hgp : s.gamePaused <;>
    cases hgo : s.gameOver <;> simp [phase, hgs, hgp, hgo]

lemma phase_endGame (s : GameState) : phase (endGame s) = Phase.ended := by
  simp [phase, endGame]

lemma genFoodAux_isSome (r : Nat → Cell) (snake : List Cell) :
    ∀ fuel i, (∃ j, i ≤ j ∧ j < i + fuel ∧ r j ∉ snake) →
      ∃ c, genFoodAux r snake i fuel = some c ∧ c ∉ snake := by
  intro fuel
  induction fuel with
  | zero =>
    rintro i ⟨j, h1, h2, _⟩
    omega
  | succ n ih =>
    rintro i ⟨j, h1, h2, h3⟩
    by_cases hm : r i ∈ snake
    · have hji : i ≠ j := by
        intro he; exact h3 (he ▸ hm)
      obtain ⟨c, hc1, hc2⟩ := ih (i + 1) ⟨j, by omega, by omega, h3⟩
      refine ⟨c, ?_, hc2⟩
      simp only [genFoodAux, hm, if_pos]
      exact hc1
    · refine ⟨r i, ?_, hm⟩
      simp [genFoodAux, hm]

end SnakeGame

namespace SnakeGame

/-- C4: any cell that `generateFood` settles on lies on the board and is
not on the snake the call checked against; the stream hypothesis models
that `Math.floor(Math.random() * TILE_COUNT)` always lands in `[0, N)`. -/
theorem generateFood_valid (N : Nat) (r : Nat → Cell) (snake : List Cell)
    (i fuel : Nat) (f : Cell)
    (hr : ∀ j, cellInBounds N (r j))
    (h : genFoodAux r snake i fuel = some f) :
    cellInBounds N f ∧ f ∉ snake := by
  induction fuel generalizing i with
  | zero => simp [genFoodAux] at h
  | succ n ih =>
    simp only [genFoodAux] at h
    split at h
    · exact ih (i + 1) h
    · cases h
      exact ⟨hr i, by assumption⟩

/-- Witness for C4 at a concrete call. -/
theorem generateFood_valid_witness :
    cellInBounds 20 ⟨0, 0⟩ ∧ (⟨0, 0⟩ : Cell) ∉ initSnake :=
  generateFood_valid 20 (fun _ => ⟨0, 0⟩) initSnake 0 1 ⟨0, 0⟩
    (fun _ => (by decide : cellInBounds 20 ⟨0, 0⟩)) (by decide)

/-- C5: when the snake occupies strictly fewer than `N*N` cells and the
random stream eventually proposes every board cell (the almost-sure
behaviour of the uniform draws), the rejection-sampling loop of
`generateFood` terminates with a cell off the snake. -/
theorem generateFood_terminates (N : Nat) (r : Nat → Cell) (snake : List Cell)
    (hr : ∀ c, cellInBounds N c → ∃ j, r j = c)
    (hcard : snake.toFinset.card < N * N) :
    ∃ fuel c, genFoodAux r snake 0 fuel = some c ∧ c ∉ snake := by
  have hfree : ∃ c ∈ boardCells N, c ∉ snake := by
    by_contra hall
    push_neg at hall
    have hsub : boardCells N ⊆ snake.toFinset := by
      intro c hc
      exact List.mem_toFinset.2 (hall c hc)
    have := Finset.card_le_card hsub
    rw [boardCells_card] at this
    omega
  obtain ⟨c, hcb, hcs⟩ := hfree
  obtain ⟨j, hj⟩ := hr c ((boardCells_mem N c).1 hcb)
  obtain ⟨c', hc1, hc2⟩ :=
    genFoodAux_isSome r snake (j + 1) 0 ⟨j, by omega, by omega, hj ▸ hcs⟩
  exact ⟨j + 1, c', hc1, hc2⟩

/-- Witness for C5 on the 1×1 board with an empty snake. -/
theorem generateFood_terminates_witness :
    ∃ fuel c, genFoodAux (fun _ => ⟨0, 0⟩) [] 0 fuel = some c ∧ c ∉ ([] : List Cell) :=
  generateFood_terminates 1 (fun _ => ⟨0, 0⟩) []
    (fun c hc => ⟨0, by
      obtain ⟨hx0, hx1, hy0, hy1⟩ := hc
      have hx : c.x = 0 := by omega
      have hy : c.y = 0 := by omega
      cases c
      simp_all⟩)
    (by simp)

/-- C1: a tick of a running game does exactly one of three things: the
new head lands on the food and the snake grows with score +10; or the
new head is on the board and off the snake and the snake moves keeping
its length; or the new head left the board or hit the snake and the game
ends with snake, score and food untouched.  The food-validity
hypotheses (which hold in every reachable state) make the three guards
mutually exclusive and exhaustive. -/
theorem tick_trichotomy (N : Nat) (r : Nat → Cell) (fuel : Nat) (s s' : GameState)
    (hph : phase s = Phase.running)
    (hne : s.snake ≠ [])
    (hfb : cellInBounds N s.food)
    (hfs : s.food ∉ s.snake)
    (h : update N r fuel s = some s') :
    (nextHead s = s.food ∧ cellInBounds N (nextHead s) ∧ nextHead s ∉ s.snake ∧
        s'.snake = nextHead s :: s.snake ∧
        s'.score = s.score + 10 ∧ phase s' = Phase.running) ∨
    (nextHead s ≠ s.food ∧ cellInBounds N (nextHead s) ∧ nextHead s ∉ s.snake ∧
        s'.snake = (nextHead s :: s.snake).dropLast ∧
        s'.snake.length = s.snake.length ∧ s'.score = s.score ∧
        phase s' = Phase.running) ∨
    ((¬ cellInBounds N (nextHead s) ∨ nextHead s ∈ s.snake) ∧ nextHead s ≠ s.food ∧
        phase s' = Phase.ended ∧ s'.snake = s.snake ∧ s'.score = s.score ∧
        s'.food = s.food) := by
  obtain ⟨hst, hpa⟩ := (phase_running_iff s).1 hph
  obtain ⟨hb1, hb2, hb3, hb4⟩ := hfb
  rw [update] at h
  rw [if_neg (by simp [hpa])] at h
  split at h
  · next hwall =>
    injection h with h
    subst h
    refine Or.inr (Or.inr ⟨Or.inl ?_, ?_, phase_endGame s, rfl, rfl, rfl⟩)
    · intro hcb
      obtain ⟨h1, h2, h3, h4⟩ := hcb
      rcases hwall with hw | hw | hw | hw <;> omega
    · intro he
      rw [he] at hwall
      rcases hwall with hw | hw | hw | hw <;> omega
  · next hwall =>
    split at h
    · next hmem =>
      injection h with h
      subst h
      refine Or.inr (Or.inr ⟨Or.inr hmem, ?_, phase_endGame s, rfl, rfl, rfl⟩)
      intro he
      exact hfs (he ▸ hmem)
    · next hmem =>
      have hinb : cellInBounds N (nextHead s) := by
        push_neg at hwall
        exact ⟨hwall.1, hwall.2.1, hwall.2.2.1, hwall.2.2.2⟩
      split at h
      · next heat =>
        cases hg : genFoodAux r (nextHead s :: s.snake) 0 fuel with
        | none => rw [hg] at h; simp at h
        | some f =>
          rw [hg] at h
          injection h with h
          subst h
          simp only [accelerate, scoreFood]
          split_ifs <;>
            exact Or.inl ⟨heat, hinb, hmem, rfl, rfl,
              by rw [phase_running_iff]; exact ⟨hst, hpa⟩⟩
      · next heat =>
        injection h with h
        subst h
        refine Or.inr (Or.inl ⟨heat, hinb, hmem, rfl, ?_, rfl, ?_⟩)
        · simp [List.length_dropLast]
        · rw [phase_running_iff]
          exact ⟨hst, hpa⟩

/-- Witness for C1: a concrete running state taking a plain movement tick. -/
theorem tick_trichotomy_witness :
    (nextHead sampleRun = sampleRun.food ∧ cellInBounds 20 (nextHead sampleRun) ∧
        nextHead sampleRun ∉ sampleRun.snake ∧
        sampleMoved.snake = nextHead sampleRun :: sampleRun.snake ∧
        sampleMoved.score = sampleRun.score + 10 ∧ phase sampleMoved = Phase.running) ∨
    (nextHead sampleRun ≠ sampleRun.food ∧ cellInBounds 20 (nextHead sampleRun) ∧
        nextHead sampleRun ∉ sampleRun.snake ∧
        sampleMoved.snake = (nextHead sampleRun :: sampleRun.snake).dropLast ∧
        sampleMoved.snake.length = sampleRun.snake.length ∧
        sampleMoved.score = sampleRun.score ∧ phase sampleMoved = Phase.running) ∨
    ((¬ cellInBounds 20 (nextHead sampleRun) ∨ nextHead sampleRun ∈ sampleRun.snake) ∧
        nextHead sampleRun ≠ sampleRun.food ∧ phase sampleMoved = Phase.ended ∧
        sampleMoved.snake = sampleRun.snake ∧ sampleMoved.score = sampleRun.score ∧
        sampleMoved.food = sampleRun.food) :=
  tick_trichotomy 20 constStream 1 sampleRun sampleMoved
    (by decide) (by decide) (by decide) (by decide) (by decide)

/-- C8 (amended): in a paused state, `update` returns the state
untouched — the `if (gamePaused) return;` guard at line 134. -/
theorem tick_paused_noop (N : Nat) (r : Nat → Cell) (fuel : Nat) (s : GameState)
    (h : phase s = Phase.paused) :
    update N r fuel s = some s := by
  obtain ⟨-, hp⟩ := (phase_paused_iff s).1 h
  rw [update, if_pos (by simp [hp])]

/-- Witness for C8 at a concrete paused state. -/
theorem tick_paused_noop_witness :
    update 20 constStream 1 samplePaused = some samplePaused :=
  tick_paused_noop 20 constStream 1 samplePaused (by decide)

/-- Counterexample to C8 as stated: `update` checks only `gamePaused`,
so invoking it on an idle state (not paused, not started) moves the
snake instead of leaving the state unchanged. -/
theorem tick_idle_mutates :
    phase sampleIdle = Phase.idle ∧
      update 20 constStream 1 sampleIdle ≠ some sampleIdle := by
  decide

/-- C9: a direction key that is the exact reverse of the current
direction is silently ignored by the keydown handler: the vertical keys
require `dy === 0` and the horizontal keys require `dx === 0`
(lines 236–251). -/
theorem reverse_key_ignored (s : GameState) (k : Key) (d : Int × Int)
    (hs : s.gameStarted = true)
    (hk : keyDelta k = some d)
    (hdx : s.dx = -d.1) (hdy : s.dy = -d.2) :
    keydown k s = s := by
  cases k
  case up =>
    injection hk with hk
    subst hk
    simp only at hdy
    simp [keydown, hs, hdy]
  case down =>
    injection hk with hk
    subst hk
    simp only at hdy
    simp [keydown, hs, hdy]
  case left =>
    injection hk with hk
    subst hk
    simp only at hdx
    simp [keydown, hs, hdx]
  case right =>
    injection hk with hk
    subst hk
    simp only at hdx
    simp [keydown, hs, hdx]
  case space =>
    simp [keyDelta] at hk

/-- Witness for C9: pressing Left while moving right is ignored. -/
theorem reverse_key_ignored_witness : keydown Key.left sampleRun = sampleRun :=
  reverse_key_ignored sampleRun Key.left (-1, 0)
    (by decide) (by decide) (by decide) (by decide)

/-- Counterexample to C6 as stated: `restartGame` clears `gameStarted`
and arms no timer, so after a restart from an ended state the phase is
idle, not running. -/
theorem restart_stays_idle :
    phase sampleEnded = Phase.ended ∧
      restartGame constStream 1 sampleEnded = some sampleIdle ∧
      phase sampleIdle ≠ Phase.running := by
  decide

/-- C6 (amended): restarting from an ended state resets the snake to the
initial three cells heading right, the score to 0 and the speed to the
initial 120 ms, but leaves the phase at idle with no timer armed — the
player must press start again. -/
theorem restart_reinitializes (r : Nat → Cell) (fuel : Nat) (s s' : GameState)
    (hph : phase s = Phase.ended)
    (h : restartGame r fuel s = some s') :
    phase s' = Phase.idle ∧ s'.snake = initSnake ∧ s'.dx = 1 ∧ s'.dy = 0 ∧
      s'.score = 0 ∧ s'.gameSpeed = 120 ∧ s'.timer = none := by
  simp only [restartGame, initGame] at h
  rw [Option.map_eq_some'] at h
  obtain ⟨f, hf, hfe⟩ := h
  subst hfe
  exact ⟨(phase_idle_iff _).2 ⟨rfl, rfl⟩, rfl, rfl, rfl, rfl, rfl, rfl⟩

/-- Witness for the amended C6 at a concrete ended state. -/
theorem restart_reinitializes_witness :
    phase sampleIdle = Phase.idle ∧ sampleIdle.snake = initSnake ∧
      sampleIdle.dx = 1 ∧ sampleIdle.dy = 0 ∧ sampleIdle.score = 0 ∧
      sampleIdle.gameSpeed = 120 ∧ sampleIdle.timer = none :=
  restart_reinitializes constStream 1 sampleEnded sampleIdle (by decide) (by decide)

/-- Counterexample to C7 as stated: `startGame` does not reset
`gameSpeed`, so starting from an ended state whose previous game
accelerated to 100 ms arms the timer at 100 ms, not at the initial
120 ms. -/
theorem start_keeps_speed :
    sampleEndedFast.gameStarted = false ∧
      (startGame constStream 1 sampleEndedFast).map GameState.gameSpeed = some 100 ∧
      (startGame constStream 1 sampleEndedFast).map GameState.timer = some (some 100) ∧
      (100 : Nat) ≠ 120 := by
  decide

/-- C7 (amended): from any non-started state, `startGame` resets snake,
direction and score, places food off the snake, sets the phase to
running, and arms the timer at the *current* `gameSpeed` — which equals
the initial interval only if no earlier game accelerated it (only
`restartGame` resets the speed). -/
theorem start_initializes (r : Nat → Cell) (fuel : Nat) (s s' : GameState)
    (hns : s.gameStarted = false)
    (h : startGame r fuel s = some s') :
    s'.snake = initSnake ∧ s'.dx = 1 ∧ s'.dy = 0 ∧ s'.score = 0 ∧
      s'.food ∉ s'.snake ∧ phase s' = Phase.running ∧
      s'.gameSpeed = s.gameSpeed ∧ s'.timer = some s.gameSpeed := by
  simp only [startGame, hns, Bool.false_eq_true, if_false, initGame, Option.map_map] at h
  rw [Option.map_eq_some'] at h
  obtain ⟨f, hf, hfe⟩ := h
  subst hfe
  refine ⟨rfl, rfl, rfl, rfl, ?_, (phase_running_iff _).2 ⟨rfl, rfl⟩, rfl, rfl⟩
  exact genFoodAux_not_mem r initSnake fuel 0 f hf

/-- Witness for the amended C7: starting from the fresh idle state. -/
theorem start_initializes_witness :
    sampleRun.snake = initSnake ∧ sampleRun.dx = 1 ∧ sampleRun.dy = 0 ∧
      sampleRun.score = 0 ∧ sampleRun.food ∉ sampleRun.snake ∧
      phase sampleRun = Phase.running ∧
      sampleRun.gameSpeed = sampleIdle.gameSpeed ∧
      sampleRun.timer = some sampleIdle.gameSpeed :=
  start_initializes constStream 1 sampleIdle sampleRun (by decide) (by decide)

lemma togglePause_snake (s : GameState) : (togglePause s).snake = s.snake := by
  rw [togglePause]
  split <;> rfl

lemma keydown_snake (k : Key) (s : GameState) : (keydown k s).snake = s.snake := by
  cases k <;> simp only [keydown] <;> split_ifs <;> simp [togglePause_snake]

lemma initSnake_inv (N : Nat) (h11 : 11 ≤ N) :
    (∀ c ∈ initSnake, cellInBounds N c) ∧ initSnake.Nodup := by
  have hN : (11 : Int) ≤ (N : Int) := by exact_mod_cast h11
  constructor
  · intro c hc
    simp only [initSnake, List.mem_cons, List.not_mem_nil, or_false] at hc
    rcases hc with rfl | rfl | rfl <;> simp [cellInBounds] <;> omega
  · decide

lemma update_snakeInv (N : Nat) (r : Nat → Cell) (fuel : Nat) (s s' : GameState)
    (hinv : SnakeInv N s) (h : update N r fuel s = some s') : SnakeInv N s' := by
  rw [update] at h
  split at h
  · injection h with h
    subst h
    exact hinv
  · split at h
    · next hwall =>
      injection h with h
      subst h
      exact hinv
    · next hwall =>
      split at h
      · next hmem =>
        injection h with h
        subst h
        exact hinv
      · next hmem =>
        have hhd : cellInBounds N (nextHead s) := by
          push_neg at hwall
          exact ⟨hwall.1, hwall.2.1, hwall.2.2.1, hwall.2.2.2⟩
        split at h
        · next heat =>
          rw [Option.map_eq_some'] at h
          obtain ⟨f, hf, hfe⟩ := h
          subst hfe
          have hs :
              (accelerate { scoreFood { s with snake := nextHead s :: s.snake } with
                  food := f }).snake = nextHead s :: s.snake := by
            simp only [accelerate, scoreFood]
            split_ifs <;> rfl
          constructor
          · intro c hc
            rw [hs] at hc
            rcases List.mem_cons.1 hc with hceq | hcs
            · subst hceq
              exact hhd
            · exact hinv.1 c hcs
          · rw [hs]
            exact List.nodup_cons.2 ⟨hmem, hinv.2⟩
        · next heat =>
          injection h with h
          subst h
          have hsub := List.dropLast_sublist (nextHead s :: s.snake)
          constructor
          · intro c hc
            rcases List.mem_cons.1 (hsub.subset hc) with hceq | hcs
            · subst hceq
              exact hhd
            · exact hinv.1 c hcs
          · exact (List.nodup_cons.2 ⟨hmem, hinv.2⟩).sublist hsub

lemma step_snakeInv (N : Nat) (op : Op) (s s' : GameState) (h11 : 11 ≤ N)
    (hinv : SnakeInv N s) (h : step N op s = some s') : SnakeInv N s' := by
  cases op with
  | tick r fuel => exact update_snakeInv N r fuel s s' hinv h
  | key k =>
    simp only [step] at h
    injection h with h
    subst h
    exact ⟨fun c hc => hinv.1 c (by rwa [keydown_snake] at hc),
      by rw [keydown_snake]; exact hinv.2⟩
  | pauseBtn =>
    simp only [step] at h
    injection h with h
    subst h
    exact ⟨fun c hc => hinv.1 c (by rwa [togglePause_snake] at hc),
      by rw [togglePause_snake]; exact hinv.2⟩
  | startBtn r fuel =>
    simp only [step, startGame] at h
    split at h
    · injection h with h
      subst h
      exact hinv
    · simp only [initGame, Option.map_map] at h
      rw [Option.map_eq_some'] at h
      obtain ⟨f, hf, hfe⟩ := h
      subst hfe
      exact ⟨fun c hc => (initSnake_inv N h11).1 c hc, (initSnake_inv N h11).2⟩
  | restartBtn r fuel =>
    simp only [step, restartGame, initGame] at h
    rw [Option.map_eq_some'] at h
    obtain ⟨f, hf, hfe⟩ := h
    subst hfe
    exact ⟨fun c hc => (initSnake_inv N h11).1 c hc, (initSnake_inv N h11).2⟩

lemma run_snakeInv (N : Nat) (h11 : 11 ≤ N) :
    ∀ ops s s', SnakeInv N s → run N ops s = some s' → SnakeInv N s' := by
  intro ops
  induction ops with
  | nil =>
    intro s s' hinv h
    simp only [run] at h
    injection h with h
    subst h
    exact hinv
  | cons op ops ih =>
    intro s s' hinv h
    simp only [run] at h
    rw [Option.bind_eq_some] at h
    obtain ⟨s1, h1, h2⟩ := h
    exact ih s1 s' (step_snakeInv N op s s1 h11 hinv h1) h2

/-- C2: from any accepted start, every state reachable through any
sequence of ticks, key presses and button presses has all snake cells on
the `N × N` board and pairwise distinct (`N ≥ 11` so that the initial
snake fits, as on the 20×20 board of the page). -/
theorem reachable_snake_inv (N : Nat) (r : Nat → Cell) (fuel : Nat)
    (ops : List Op) (s s0 s' : GameState)
    (h11 : 11 ≤ N)
    (hns : s.gameStarted = false)
    (hstart : startGame r fuel s = some s0)
    (hrun : run N ops s0 = some s') :
    SnakeInv N s' := by
  have hinv0 : SnakeInv N s0 := by
    simp only [startGame, hns, Bool.false_eq_true, if_false, initGame,
      Option.map_map] at hstart
    rw [Option.map_eq_some'] at hstart
    obtain ⟨f, hf, hfe⟩ := hstart
    subst hfe
    exact ⟨fun c hc => (initSnake_inv N h11).1 c hc, (initSnake_inv N h11).2⟩
  exact run_snakeInv N h11 ops s0 s' hinv0 hrun

/-- Witness for C2: the state right after a concrete start. -/
theorem reachable_snake_inv_witness : SnakeInv 20 sampleRun :=
  reachable_snake_inv 20 constStream 1 [] sampleIdle sampleRun sampleRun
    (by decide) (by decide) (by decide) (by decide)

lemma togglePause_fields (s : GameState) :
    (togglePause s).score = s.score ∧ (togglePause s).highScore = s.highScore ∧
      (togglePause s).writes = s.writes := by
  rw [togglePause]
  split <;> exact ⟨rfl, rfl, rfl⟩

lemma keydown_fields (k : Key) (s : GameState) :
    (keydown k s).score = s.score ∧ (keydown k s).highScore = s.highScore ∧
      (keydown k s).writes = s.writes := by
  cases k <;> simp only [keydown] <;> split_ifs <;>
    first
    | exact ⟨rfl, rfl, rfl⟩
    | exact togglePause_fields s

lemma step_snake_length (N : Nat) (op : Op) (s s' : GameState)
    (hop : InGameOp op) (h : step N op s = some s') :
    s'.snake.length = s.snake.length ∨ s'.snake.length = s.snake.length + 1 := by
  cases op with
  | tick r fuel =>
    simp only [step] at h
    rw [update] at h
    split at h
    · injection h with h
      subst h
      exact Or.inl rfl
    · split at h
      · injection h with h
        subst h
        exact Or.inl rfl
      · split at h
        · injection h with h
          subst h
          exact Or.inl rfl
        · split at h
          · rw [Option.map_eq_some'] at h
            obtain ⟨f, hf, hfe⟩ := h
            subst hfe
            right
            have hs :
                (accelerate { scoreFood { s with snake := nextHead s :: s.snake } with
                    food := f }).snake = nextHead s :: s.snake := by
              simp only [accelerate, scoreFood]
              split_ifs <;> rfl
            rw [hs]
            rfl
          · injection h with h
            subst h
            left
            show ((nextHead s :: s.snake).dropLast).length = s.snake.length
            simp [List.length_dropLast]
  | key k =>
    simp only [step] at h
    injection h with h
    subst h
    exact Or.inl (by rw [keydown_snake])
  | pauseBtn =>
    simp only [step] at h
    injection h with h
    subst h
    exact Or.inl (by rw [togglePause_snake])
  | startBtn r fuel => exact hop.elim
  | restartBtn r fuel => exact hop.elim

lemma traceStates_length (N : Nat) :
    ∀ ops s ts, (∀ op ∈ ops, InGameOp op) → traceStates N ops s = some ts →
      3 ≤ s.snake.length →
      List.Chain' (fun a b => b.snake.length = a.snake.length ∨
          b.snake.length = a.snake.length + 1) (s :: ts) ∧
        ∀ t ∈ s :: ts, 3 ≤ t.snake.length := by
  intro ops
  induction ops with
  | nil =>
    intro s ts hops h h3
    simp only [traceStates] at h
    injection h with h
    subst h
    refine ⟨List.chain'_singleton s, ?_⟩
    intro t ht
    rcases List.mem_cons.1 ht with rfl | ht1
    · exact h3
    · simp at ht1
  | cons op ops ih =>
    intro s ts hops h h3
    simp only [traceStates] at h
    rw [Option.bind_eq_some] at h
    obtain ⟨s1, h1, h2⟩ := h
    rw [Option.map_eq_some'] at h2
    obtain ⟨ts1, ht1, hte⟩ := h2
    subst hte
    have hstep := step_snake_length N op s s1 (hops op (by simp)) h1
    have h31 : 3 ≤ s1.snake.length := by rcases hstep with he | he <;> omega
    obtain ⟨ichain, iall⟩ := ih s1 ts1 (fun o ho => hops o (by simp [ho])) ht1 h31
    refine ⟨List.chain'_cons.2 ⟨hstep, ichain⟩, ?_⟩
    intro t ht
    rcases List.mem_cons.1 ht with rfl | ht1
    · exact h3
    · exact iall t ht1

/-- C10: starting from a freshly initialized in-game state (snake length
3) and applying only in-game events (ticks, keys, pause) — no
start/restart re-initialization — each step keeps the snake length or
grows it by exactly one, and the length stays at least 3 throughout. -/
theorem snake_length_mono (N : Nat) (ops : List Op) (s : GameState)
    (ts : List GameState)
    (hops : ∀ op ∈ ops, InGameOp op)
    (hlen : s.snake.length = 3)
    (h : traceStates N ops s = some ts) :
    List.Chain' (fun a b => b.snake.length = a.snake.length ∨
        b.snake.length = a.snake.length + 1) (s :: ts) ∧
      ∀ t ∈ s :: ts, 3 ≤ t.snake.length :=
  traceStates_length N ops s ts hops h (by omega)

/-- Witness for C10: one eating tick from a concrete running state. -/
theorem snake_length_mono_witness :
    List.Chain' (fun a b => b.snake.length = a.snake.length ∨
        b.snake.length = a.snake.length + 1) (sampleEat :: [sampleEaten]) ∧
      ∀ t ∈ sampleEat :: [sampleEaten], 3 ≤ t.snake.length :=
  snake_length_mono 20 [Op.tick constStream 1] sampleEat [sampleEaten]
    (by intro op hop; rcases List.mem_singleton.1 hop with rfl; trivial)
    (by decide) (by decide)

lemma step_highScore (N : Nat) (op : Op) (s s' : GameState)
    (hinv : s.score ≤ s.highScore) (h : step N op s = some s') :
    s'.highScore = max s.highScore s'.score ∧
      s'.writes = s.writes ++ (if s.highScore < s'.score then [s'.score] else []) := by
  cases op with
  | tick r fuel =>
    simp only [step] at h
    rw [update] at h
    split at h
    · injection h with h
      subst h
      exact ⟨by omega, by rw [if_neg (by omega)]; simp⟩
    · split at h
      · injection h with h
        subst h
        constructor
        · show s.highScore = max s.highScore s.score
          omega
        · show s.writes = s.writes ++ (if s.highScore < s.score then [s.score] else [])
          rw [if_neg (by omega)]
          simp
      · split at h
        · injection h with h
          subst h
          constructor
          · show s.highScore = max s.highScore s.score
            omega
          · show s.writes = s.writes ++ (if s.highScore < s.score then [s.score] else [])
            rw [if_neg (by omega)]
            simp
        · split at h
          · rw [Option.map_eq_some'] at h
            obtain ⟨f, hf, hfe⟩ := h
            subst hfe
            simp only [accelerate, scoreFood]
            split_ifs <;> refine ⟨by simp <;> omega, by simp <;> omega⟩
          · injection h with h
            subst h
            constructor
            · show s.highScore = max s.highScore s.score
              omega
            · show s.writes = s.writes ++ (if s.highScore < s.score then [s.score] else [])
              rw [if_neg (by omega)]
              simp
  | key k =>
    simp only [step] at h
    injection h with h
    subst h
    obtain ⟨h1, h2, h3⟩ := keydown_fields k s
    rw [h1, h2, h3]
    exact ⟨by omega, by rw [if_neg (by omega)]; simp⟩
  | pauseBtn =>
    simp only [step] at h
    injection h with h
    subst h
    obtain ⟨h1, h2, h3⟩ := togglePause_fields s
    rw [h1, h2, h3]
    exact ⟨by omega, by rw [if_neg (by omega)]; simp⟩
  | startBtn r fuel =>
    simp only [step, startGame] at h
    split at h
    · injection h with h
      subst h
      exact ⟨by omega, by rw [if_neg (by omega)]; simp⟩
    · simp only [initGame, Option.map_map] at h
      rw [Option.map_eq_some'] at h
      obtain ⟨f, hf, hfe⟩ := h
      subst hfe
      constructor
      · show s.highScore = max s.highScore 0
        omega
      · show s.writes = s.writes ++ (if s.highScore < 0 then [0] else [])
        rw [if_neg (by omega)]
        simp
  | restartBtn r fuel =>
    simp only [step, restartGame, initGame] at h
    rw [Option.map_eq_some'] at h
    obtain ⟨f, hf, hfe⟩ := h
    subst hfe
    constructor
    · show s.highScore = max s.highScore 0
      omega
    · show s.writes = s.writes ++ (if s.highScore < 0 then [0] else [])
      rw [if_neg (by omega)]
      simp

lemma traceStates_high (N : Nat) :
    ∀ ops s ts, s.score ≤ s.highScore → traceStates N ops s = some ts →
      List.Chain' (fun a b => a.highScore ≤ b.highScore ∧
          b.writes = a.writes ++ (if a.highScore < b.score then [b.score] else []))
        (s :: ts) ∧
      ((s :: ts).getLast (List.cons_ne_nil s ts)).highScore =
        max s.highScore (maxScore ts) := by
  intro ops
  induction ops with
  | nil =>
    intro s ts hinv h
    simp only [traceStates] at h
    injection h with h
    subst h
    refine ⟨List.chain'_singleton s, ?_⟩
    show s.highScore = max s.highScore 0
    omega
  | cons op ops ih =>
    intro s ts hinv h
    simp only [traceStates] at h
    rw [Option.bind_eq_some] at h
    obtain ⟨s1, h1, h2⟩ := h
    rw [Option.map_eq_some'] at h2
    obtain ⟨ts1, ht1, hte⟩ := h2
    subst hte
    obtain ⟨hmax, hwr⟩ := step_highScore N op s s1 hinv h1
    have hinv1 : s1.score ≤ s1.highScore := by omega
    obtain ⟨ichain, ilast⟩ := ih s1 ts1 hinv1 ht1
    refine ⟨List.chain'_cons.2 ⟨⟨by omega, hwr⟩, ichain⟩, ?_⟩
    rw [List.getLast_cons (List.cons_ne_nil s1 ts1)]
    have hms : maxScore (s1 :: ts1) = max s1.score (maxScore ts1) := rfl
    rw [hms]
    omega

/-- C3: within one process lifetime (any event sequence from an initial
state whose high score dominates its score, as at startup), the high
score never decreases, a store write of the new high score happens in
exactly the steps where the score exceeds the previous high score, and
the final high score equals the maximum of the initial (stored) high
score and every score reached along the way. -/
theorem highScore_spec (N : Nat) (ops : List Op) (s : GameState)
    (ts : List GameState)
    (hinv : s.score ≤ s.highScore)
    (h : traceStates N ops s = some ts) :
    List.Chain' (fun a b => a.highScore ≤ b.highScore ∧
        b.writes = a.writes ++ (if a.highScore < b.score then [b.score] else []))
      (s :: ts) ∧
      ((s :: ts).getLast (List.cons_ne_nil s ts)).highScore =
        max s.highScore (maxScore ts) :=
  traceStates_high N ops s ts hinv h

/-- Witness for C3: one eating tick that sets and persists a new high
score of 10. -/
theorem highScore_spec_witness :
    List.Chain' (fun a b => a.highScore ≤ b.highScore ∧
        b.writes = a.writes ++ (if a.highScore < b.score then [b.score] else []))
      (sampleEat :: [sampleEaten]) ∧
      ((sampleEat :: [sampleEaten]).getLast
          (List.cons_ne_nil sampleEat [sampleEaten])).highScore =
        max sampleEat.highScore (maxScore [sampleEaten]) :=
  highScore_spec 20 [Op.tick constStream 1] sampleEat [sampleEaten]
    (by decide) (by decide)

end SnakeGame
